import Mathlib

/-!
Verification of the quicktask task-board core (`src/main.py`).

Shallow embedding of the `QuickTaskPlugin` task store: the data model
(`Task`, the ordered in-memory task list, the durable JSON file), the
expiration sweep (`clean_expired`), and the four public operations
(`publish_task`, `delete_task`, `list_tasks`, `search_task`).

Python strings are modelled as Lean `String`, with the operations the
source uses (`strip`, `startswith`, slicing, `len`, substring `in`)
implemented over the code-point list `String.data`, matching Python's
code-point semantics.  Timestamps (`int(time.time())`) are modelled as
`Int` and passed explicitly as `now`.  The durable file is modelled by
`FileState`; `save_data` counts its invocations in `saves` so that
"no persist call" is observable.
-/

namespace QuickTask

/-- TTL constant: `EXPIRATION_SECONDS = 30 * 60` (src/main.py line 11). -/
def EXPIRATION_SECONDS : Int := 30 * 60

/-- One task record: in the source a dict with keys `content`, `publisher`,
`publisher_id`, `create_time` (src/main.py lines 110-115). -/
structure Task where
  content : String
  publisher : String
  publisher_id : String
  create_time : Int
deriving DecidableEq, Repr

/-! ## Python string helpers (code-point semantics) -/

/-- Python `str.startswith` on code-point lists: `pfx p s` is true when
`p` is a leading segment of `s`. -/
def pfx : List Char → List Char → Bool
  | [], _ => true
  | _ :: _, [] => false
  | a :: as, b :: bs => a == b && pfx as bs

/-- Python `needle in hay` substring test on code-point lists. -/
def segIn (needle : List Char) : List Char → Bool
  | [] => needle.isEmpty
  | c :: rest => pfx needle (c :: rest) || segIn needle rest

/-- Python `str.strip()`: remove leading and trailing whitespace. -/
def strTrim (s : String) : String :=
  ⟨((s.data.dropWhile Char.isWhitespace).reverse.dropWhile Char.isWhitespace).reverse⟩

/-- Python `s.startswith(p)`. -/
def strStartsWith (s p : String) : Bool := pfx p.data s.data

/-- Python slice `s[n:]` (by code points). -/
def strDrop (s : String) (n : Nat) : String := ⟨s.data.drop n⟩

/-- Python `len(s)` (code points). -/
def strLen (s : String) : Nat := s.data.length

/-- Python `needle in hay` on strings. -/
def strContainsSub (hay needle : String) : Bool := segIn needle.data hay.data

/-! ## JSON model for the durable file -/

/-- The JSON values `json.dump`/`json.load` exchange with the data file. -/
inductive Json where
  | str (s : String)
  | num (n : Int)
  | arr (elems : List Json)
  | obj (fields : List (String × Json))

/-- Encoding of one task dict as written by `json.dump` (src/main.py
lines 32-34, with the dict shape of lines 110-115). -/
def taskToJson (t : Task) : Json :=
  .obj [("content", .str t.content), ("publisher", .str t.publisher),
        ("publisher_id", .str t.publisher_id), ("create_time", .num t.create_time)]

/-- Dictionary key lookup on a JSON object's fields. -/
def jLookup (key : String) : List (String × Json) → Option Json
  | [] => none
  | (k, v) :: rest => if k = key then some v else jLookup key rest

/-- Reading one task dict back from its JSON value: the source accesses
`t['content']`, `t['publisher']`, `t['publisher_id']`, `t['create_time']`
on the loaded objects, which is the identification of well-shaped stored
dicts with `Task` records. -/
def taskFromJson : Json → Option Task
  | .obj fields =>
    match jLookup "content" fields, jLookup "publisher" fields,
          jLookup "publisher_id" fields, jLookup "create_time" fields with
    | some (.str c), some (.str p), some (.str pid), some (.num ct) =>
        some ⟨c, p, pid, ct⟩
    | _, _, _, _ => none
  | _ => none

/-- Reading back a stored list of task dicts, element by element. -/
def decodeTaskList : List Json → Option (List Task)
  | [] => some []
  | j :: rest =>
    match taskFromJson j, decodeTaskList rest with
    | some t, some ts => some (t :: ts)
    | _, _ => none

/-- State of the durable data file `simple_task_data.json`: `absent` when
`os.path.exists` is false, `malformed` when the file exists but `json.load`
raises (empty or unparseable content), `parsed j` when `json.load`
succeeds and yields `j`. -/
inductive FileState where
  | absent
  | malformed
  | parsed (j : Json)

/-- The full store state: the in-memory ordered task list `self.tasks`,
the durable file, and a counter of `save_data` calls (to observe whether
an operation persisted). -/
structure StoreState where
  tasks : List Task
  file : FileState
  saves : Nat

/-- `load_data` (src/main.py lines 22-30): missing file or a `json.load`
failure silently yields `[]`; a parsed array of task dicts is taken as the
task list. -/
def load_data : FileState → List Task
  | .absent => []
  | .malformed => []
  | .parsed j =>
    match j with
    | .arr elems => (decodeTaskList elems).getD []
    | _ => []

/-- `save_data` (src/main.py lines 32-34): overwrite the whole file with
the JSON dump of `self.tasks`. -/
def save_data (s : StoreState) : StoreState :=
  { s with file := FileState.parsed (Json.arr (s.tasks.map taskToJson)),
           saves := s.saves + 1 }

/-- `clean_expired` (src/main.py lines 36-41): keep tasks with
`now - create_time < EXPIRATION_SECONDS`; save only when something was
removed. -/
def clean_expired (now : Int) (s : StoreState) : StoreState :=
  let valid_tasks := s.tasks.filter (fun t => decide (now - t.create_time < EXPIRATION_SECONDS))
  if valid_tasks.length ≠ s.tasks.length then
    save_data { s with tasks := valid_tasks }
  else s

/-! ## Command argument parsing -/

/-- The alias strings stripped by `publish_task` (src/main.py line 87). -/
def publishAliases : List String := ["发布任务", "发布", "pub", "task"]

/-- `publish_task`'s content extraction (src/main.py lines 85-92): strip
the first matching alias from the trimmed message; if none matches, fall
back to the whole trimmed message. -/
def parsePublishContent (msg : String) : String :=
  let cmd := strTrim msg
  match publishAliases.find? (fun p => strStartsWith cmd p) with
  | some p => strTrim (strDrop cmd (strLen p))
  | none => cmd

/-- The alias strings stripped by `search_task` (src/main.py line 176). -/
def searchAliases : List String := ["搜索任务", "搜索", "find", "query"]

/-- `search_task`'s keyword extraction (src/main.py lines 174-179):
`keyword` starts as `""` and is only set when a listed alias matches;
there is no whole-message fallback. -/
def parseSearchKeyword (msg : String) : String :=
  let cmd := strTrim msg
  match searchAliases.find? (fun p => strStartsWith cmd p) with
  | some p => strTrim (strDrop cmd (strLen p))
  | none => ""

/-! ## The four public operations -/

/-- Outcome of `publish_task` visible to the caller. -/
inductive PublishResult where
  | emptyContent
  | published (task : Task) (overwritten : Bool)
deriving DecidableEq, Repr

/-- `publish_task` (src/main.py lines 77-125): parse content, reject empty
content before anything else, then sweep, drop the caller's old task
(recording the `overwritten` flag), append the new task, save. -/
def publish_task (user_name user_id msg : String) (now : Int) (s : StoreState) :
    StoreState × PublishResult :=
  let content := parsePublishContent msg
  if content = "" then (s, .emptyContent)
  else
    let s₁ := clean_expired now s
    let kept := s₁.tasks.filter (fun t => decide (t.publisher_id ≠ user_id))
    let overwritten := decide (kept.length < s₁.tasks.length)
    let new_task : Task := ⟨content, user_name, user_id, now⟩
    (save_data { s₁ with tasks := kept ++ [new_task] }, .published new_task overwritten)

/-- `delete_task` (src/main.py lines 132-148): sweep, find the caller's
first task; remove it and save when found, otherwise report not-found with
no further change. -/
def delete_task (user_id : String) (now : Int) (s : StoreState) :
    StoreState × Option Task :=
  let s₁ := clean_expired now s
  match s₁.tasks.find? (fun t => decide (t.publisher_id = user_id)) with
  | some target => (save_data { s₁ with tasks := s₁.tasks.erase target }, some target)
  | none => (s₁, none)

/-- `list_tasks` (src/main.py lines 156-165): sweep, then return the whole
task list. -/
def list_tasks (now : Int) (s : StoreState) : StoreState × List Task :=
  let s₁ := clean_expired now s
  (s₁, s₁.tasks)

/-- `search_task` (src/main.py lines 171-192): parse the keyword, sweep;
empty keyword lists everything, otherwise filter by substring containment
in `content`. -/
def search_task (msg : String) (now : Int) (s : StoreState) :
    StoreState × List Task :=
  let keyword := parseSearchKeyword msg
  let s₁ := clean_expired now s
  if keyword = "" then (s₁, s₁.tasks)
  else (s₁, s₁.tasks.filter (fun t => strContainsSub t.content keyword))

/-- The store invariant: no two tasks share a `publisher_id`. -/
def UniquePublisher (ts : List Task) : Prop :=
  ts.Pairwise (fun a b => a.publisher_id ≠ b.publisher_id)

/-- Number of tasks owned by `user_id` in a task list. -/
def countForPublisher (user_id : String) (ts : List Task) : Nat :=
  (ts.filter (fun t => decide (t.publisher_id = user_id))).length

/-! ## Helper lemmas -/

lemma expiration_eq : EXPIRATION_SECONDS = 1800 := by norm_num [EXPIRATION_SECONDS]

lemma save_data_tasks (s : StoreState) : (save_data s).tasks = s.tasks := rfl

lemma save_data_saves (s : StoreState) : (save_data s).saves = s.saves + 1 := rfl

lemma clean_expired_tasks (now : Int) (s : StoreState) :
    (clean_expired now s).tasks
      = s.tasks.filter (fun t => decide (now - t.create_time < EXPIRATION_SECONDS)) := by
  simp only [clean_expired]
  split
  · rfl
  · next h =>
    push_neg at h
    exact ((List.filter_sublist s.tasks).eq_of_length h).symm

lemma mem_clean_expired {now : Int} {s : StoreState} {tk : Task} :
    tk ∈ (clean_expired now s).tasks
      ↔ tk ∈ s.tasks ∧ now - tk.create_time < EXPIRATION_SECONDS := by
  simp [clean_expired_tasks]

lemma publish_of_empty {user_name user_id msg : String} {now : Int} {s : StoreState}
    (h : parsePublishContent msg = "") :
    publish_task user_name user_id msg now s = (s, PublishResult.emptyContent) := by
  simp [publish_task, h]

lemma publish_of_nonempty {user_name user_id msg : String} {now : Int} {s : StoreState}
    (h : parsePublishContent msg ≠ "") :
    publish_task user_name user_id msg now s =
      (save_data { clean_expired now s with
          tasks := (clean_expired now s).tasks.filter
                     (fun t => decide (t.publisher_id ≠ user_id))
                   ++ [⟨parsePublishContent msg, user_name, user_id, now⟩] },
       PublishResult.published ⟨parsePublishContent msg, user_name, user_id, now⟩
         (decide (((clean_expired now s).tasks.filter
             (fun t => decide (t.publisher_id ≠ user_id))).length
           < (clean_expired now s).tasks.length))) := by
  simp [publish_task, h]

lemma search_of_empty_keyword {msg : String} {now : Int} {s : StoreState}
    (h : parseSearchKeyword msg = "") :
    search_task msg now s = list_tasks now s := by
  simp [search_task, list_tasks, h]

lemma search_of_keyword {msg : String} {now : Int} {s : StoreState}
    (h : parseSearchKeyword msg ≠ "") :
    search_task msg now s =
      (clean_expired now s,
       (clean_expired now s).tasks.filter
         (fun t => strContainsSub t.content (parseSearchKeyword msg))) := by
  simp [search_task, h]

lemma delete_of_none {user_id : String} {now : Int} {s : StoreState}
    (h : (clean_expired now s).tasks.find?
           (fun t => decide (t.publisher_id = user_id)) = none) :
    delete_task user_id now s = (clean_expired now s, none) := by
  simp [delete_task, h]

lemma delete_of_some {user_id : String} {now : Int} {s : StoreState} {target : Task}
    (h : (clean_expired now s).tasks.find?
           (fun t => decide (t.publisher_id = user_id)) = some target) :
    delete_task user_id now s =
      (save_data { clean_expired now s with
          tasks := (clean_expired now s).tasks.erase target },
       some target) := by
  simp [delete_task, h]

lemma pfx_iff (p l : List Char) : pfx p l = true ↔ ∃ r, l = p ++ r := by
  induction p generalizing l with
  | nil =>
    constructor
    · intro _; exact ⟨l, rfl⟩
    · intro _; rfl
  | cons a as ih =>
    cases l with
    | nil =>
      constructor
      · intro h; exact absurd h (by simp [pfx])
      · rintro ⟨r, hr⟩; exact absurd hr (by simp)
    | cons b bs =>
      constructor
      · intro h
        simp only [pfx, Bool.and_eq_true, beq_iff_eq] at h
        obtain ⟨r, hr⟩ := (ih bs).mp h.2
        exact ⟨r, by simp [h.1, hr]⟩
      · rintro ⟨r, hr⟩
        rw [List.cons_append, List.cons.injEq] at hr
        obtain ⟨hb, hbs⟩ := hr
        subst hb; subst hbs
        simp [pfx, (ih (as ++ r)).mpr ⟨r, rfl⟩]

lemma segIn_iff (nd hay : List Char) :
    segIn nd hay = true ↔ ∃ l r, hay = l ++ nd ++ r := by
  induction hay with
  | nil =>
    constructor
    · intro h
      simp only [segIn, List.isEmpty_eq_true] at h
      exact ⟨[], [], by simp [h]⟩
    · rintro ⟨l, r, hr⟩
      have h1 := List.append_eq_nil.mp hr.symm
      have h2 := List.append_eq_nil.mp h1.1
      simp [segIn, h2.2]
  | cons c rest ih =>
    constructor
    · intro h
      simp only [segIn, Bool.or_eq_true] at h
      rcases h with h | h
      · obtain ⟨r, hr⟩ := (pfx_iff nd _).mp h
        exact ⟨[], r, by simp [hr]⟩
      · obtain ⟨l, r, hr⟩ := ih.mp h
        exact ⟨c :: l, r, by simp [hr]⟩
    · rintro ⟨l, r, hr⟩
      cases l with
      | nil =>
        simp only [List.nil_append] at hr
        simp only [segIn, Bool.or_eq_true]
        exact Or.inl ((pfx_iff nd _).mpr ⟨r, hr⟩)
      | cons x xs =>
        simp only [List.cons_append, List.cons.injEq] at hr
        obtain ⟨hc, hrest⟩ := hr
        simp only [segIn, Bool.or_eq_true]
        exact Or.inr (ih.mpr ⟨xs, r, hrest⟩)

lemma taskFromJson_taskToJson (t : Task) : taskFromJson (taskToJson t) = some t := rfl

lemma decodeTaskList_map (ts : List Task) :
    decodeTaskList (ts.map taskToJson) = some ts := by
  induction ts with
  | nil => rfl
  | cons t rest ih => simp [decodeTaskList, taskFromJson_taskToJson, ih]

/-! ## Claim theorems -/

/-- C2: the expiration sweep removes exactly the tasks with
`now - created_at >= TTL` where TTL is 1800 seconds; a task published at
time `t` is still listed at `t + 1799` and gone at `t + 1800` (the
boundary at exactly TTL counts as expired). -/
theorem clean_expired_exact (now : Int) (s : StoreState) :
    (clean_expired now s).tasks
      = s.tasks.filter (fun tk => decide (now - tk.create_time < 1800))
  ∧ ∀ tk ∈ s.tasks,
      tk ∈ (list_tasks (tk.create_time + 1799) s).2
        ∧ tk ∉ (list_tasks (tk.create_time + 1800) s).2 := by
  constructor
  · rw [clean_expired_tasks]
    simp [expiration_eq]
  · intro tk htk
    constructor
    · simp [list_tasks, clean_expired_tasks, htk, expiration_eq]
    · simp [list_tasks, clean_expired_tasks, htk, expiration_eq]

/-- Witness for C2 at a concrete input: the boundary scenario of the spec
(publish at `t = 0`, visible at `t = 1799`, gone at `t = 1800`). -/
theorem clean_expired_exact_witness :
    (⟨"selling gear", "B", "B", 0⟩ : Task)
        ∈ ({ tasks := [⟨"selling gear", "B", "B", 0⟩], file := FileState.absent,
             saves := 0 } : StoreState).tasks
  ∧ ((⟨"selling gear", "B", "B", 0⟩ : Task)
        ∈ (list_tasks ((0 : Int) + 1799)
            { tasks := [⟨"selling gear", "B", "B", 0⟩], file := FileState.absent,
              saves := 0 }).2
      ∧ (⟨"selling gear", "B", "B", 0⟩ : Task)
        ∉ (list_tasks ((0 : Int) + 1800)
            { tasks := [⟨"selling gear", "B", "B", 0⟩], file := FileState.absent,
              saves := 0 }).2) := by
  refine ⟨by decide, ?_⟩
  exact (clean_expired_exact 0
    { tasks := [⟨"selling gear", "B", "B", 0⟩], file := FileState.absent,
      saves := 0 }).2 ⟨"selling gear", "B", "B", 0⟩ (by decide)

/-- C4: a search whose keyword is empty after trimming returns exactly
the same result (state and task sequence) as `list_tasks` at that time. -/
theorem search_empty_keyword_is_list (msg : String) (now : Int) (s : StoreState)
    (h : parseSearchKeyword msg = "") :
    search_task msg now s = list_tasks now s :=
  search_of_empty_keyword h

/-- Witness for C4: a message matching no search alias yields the empty
keyword, and searching equals listing. -/
theorem search_empty_keyword_is_list_witness :
    parseSearchKeyword "hello" = ""
  ∧ search_task "hello" 0
      { tasks := [⟨"a", "n", "u", 0⟩], file := FileState.absent, saves := 0 }
      = list_tasks 0
      { tasks := [⟨"a", "n", "u", 0⟩], file := FileState.absent, saves := 0 } :=
  ⟨by decide, search_empty_keyword_is_list "hello" 0 _ (by decide)⟩

/-- C5: for a non-empty keyword, search returns exactly the sub-sequence
of the post-sweep store whose contents contain the keyword as a
(case-sensitive) substring, in insertion order: it equals `list_tasks`'s
sequence filtered by containment, is a sublist of it, and every returned
task's content has the keyword as a contiguous segment. -/
theorem search_filters_content (msg : String) (now : Int) (s : StoreState)
    (h : parseSearchKeyword msg ≠ "") :
    (search_task msg now s).2
      = (list_tasks now s).2.filter
          (fun tk => strContainsSub tk.content (parseSearchKeyword msg))
  ∧ List.Sublist (search_task msg now s).2 (list_tasks now s).2
  ∧ ∀ tk ∈ (search_task msg now s).2,
      ∃ l r, tk.content.data = l ++ (parseSearchKeyword msg).data ++ r := by
  refine ⟨?_, ?_, ?_⟩
  · rw [search_of_keyword h]
    simp [list_tasks]
  · rw [search_of_keyword h]
    simp only [list_tasks]
    exact List.filter_sublist _
  · intro tk htk
    rw [search_of_keyword h] at htk
    simp only [List.mem_filter, strContainsSub] at htk
    exact (segIn_iff _ _).mp htk.2

/-- Witness for C5: searching "find gear" over a one-task store filters
by the keyword "gear". -/
theorem search_filters_content_witness :
    parseSearchKeyword "find gear" ≠ ""
  ∧ (search_task "find gear" 0
        { tasks := [⟨"selling gear", "n", "u", 0⟩], file := FileState.absent,
          saves := 0 }).2
      = (list_tasks 0
        { tasks := [⟨"selling gear", "n", "u", 0⟩], file := FileState.absent,
          saves := 0 }).2.filter
          (fun tk => strContainsSub tk.content (parseSearchKeyword "find gear")) :=
  ⟨by decide, (search_filters_content "find gear" 0 _ (by decide)).1⟩

/-- C7: a publish whose content is empty after trimming aborts before any
mutation and any persist call: the returned state is exactly the input
state, with its save counter unchanged. -/
theorem publish_empty_content_aborts (user_name user_id msg : String) (now : Int)
    (s : StoreState) (h : parsePublishContent msg = "") :
    publish_task user_name user_id msg now s = (s, PublishResult.emptyContent)
  ∧ (publish_task user_name user_id msg now s).1.saves = s.saves := by
  refine ⟨publish_of_empty h, ?_⟩
  rw [publish_of_empty h]

/-- Witness for C7: the bare alias "pub" leaves empty content, and the
store is returned untouched. -/
theorem publish_empty_content_aborts_witness :
    parsePublishContent "pub" = ""
  ∧ publish_task "n" "u" "pub" 0 { tasks := [], file := FileState.absent, saves := 0 }
      = ({ tasks := [], file := FileState.absent, saves := 0 }, PublishResult.emptyContent) :=
  ⟨by decide, (publish_empty_content_aborts "n" "u" "pub" 0 _ (by decide)).1⟩

/-- C8: persisting and then loading afresh (a process restart) reproduces
the identical ordered task sequence. -/
theorem save_then_load_roundtrip (s : StoreState) :
    load_data (save_data s).file = s.tasks := by
  simp [save_data, load_data, decodeTaskList_map]

/-- C9: loading from an absent file, or from a file whose content
`json.load` rejects (empty or malformed), yields the empty store;
`load_data` is total, so no error surfaces to callers. -/
theorem load_absorbs_failures :
    load_data FileState.absent = [] ∧ load_data FileState.malformed = [] :=
  ⟨rfl, rfl⟩

lemma uniquePublisher_sublist {l₁ l₂ : List Task} (h : List.Sublist l₁ l₂)
    (hu : UniquePublisher l₂) : UniquePublisher l₁ :=
  List.Pairwise.sublist h hu

/-- C1: after a successful publish the store holds exactly one task for
that publisher, and the at-most-one-task-per-publisher invariant is
preserved by publish, delete and the expiration sweep. -/
theorem publish_overwrite_unique (user_name user_id msg : String) (now : Int)
    (s : StoreState) (hs : UniquePublisher s.tasks) :
    UniquePublisher (publish_task user_name user_id msg now s).1.tasks
  ∧ UniquePublisher (delete_task user_id now s).1.tasks
  ∧ UniquePublisher (clean_expired now s).tasks
  ∧ ∀ tk ov, (publish_task user_name user_id msg now s).2 = PublishResult.published tk ov →
      countForPublisher user_id (publish_task user_name user_id msg now s).1.tasks = 1 := by
  have hclean : UniquePublisher (clean_expired now s).tasks := by
    rw [clean_expired_tasks]
    exact uniquePublisher_sublist (List.filter_sublist _) hs
  have hpub : UniquePublisher (publish_task user_name user_id msg now s).1.tasks := by
    by_cases hc : parsePublishContent msg = ""
    · rw [publish_of_empty hc]
      exact hs
    · rw [publish_of_nonempty hc]
      show UniquePublisher (_ ++ [_])
      unfold UniquePublisher
      rw [List.pairwise_append]
      refine ⟨uniquePublisher_sublist (List.filter_sublist _) hclean,
        List.pairwise_singleton _ _, ?_⟩
      intro a ha b hb
      simp only [List.mem_filter, decide_eq_true_eq] at ha
      simp only [List.mem_singleton] at hb
      subst hb
      exact ha.2
  have hdel : UniquePublisher (delete_task user_id now s).1.tasks := by
    cases hf : (clean_expired now s).tasks.find? (fun t => decide (t.publisher_id = user_id)) with
    | none =>
      rw [delete_of_none hf]
      exact hclean
    | some target =>
      rw [delete_of_some hf]
      exact uniquePublisher_sublist (List.erase_sublist _ _) hclean
  refine ⟨hpub, hdel, hclean, ?_⟩
  intro tk ov heq
  by_cases hc : parsePublishContent msg = ""
  · rw [publish_of_empty hc] at heq
    simp at heq
  · rw [publish_of_nonempty hc]
    show countForPublisher user_id (_ ++ [_]) = 1
    unfold countForPublisher
    rw [List.filter_append]
    have h1 : ((clean_expired now s).tasks.filter
        (fun t => decide (t.publisher_id ≠ user_id))).filter
          (fun t => decide (t.publisher_id = user_id)) = [] := by
      refine List.filter_eq_nil_iff.mpr ?_
      intro a ha
      simp only [List.mem_filter, decide_eq_true_eq] at ha
      simp [ha.2]
    rw [h1]
    simp

/-- Witness for C1: publishing into the empty store (which trivially
satisfies the invariant) yields a store with exactly one task for the
publisher. -/
theorem publish_overwrite_unique_witness :
    UniquePublisher ({ tasks := [], file := FileState.absent, saves := 0 } : StoreState).tasks
  ∧ countForPublisher "A"
      (publish_task "Alice" "A" "pub hi" 5
        { tasks := [], file := FileState.absent, saves := 0 }).1.tasks = 1 := by
  have hu : UniquePublisher
      ({ tasks := [], file := FileState.absent, saves := 0 } : StoreState).tasks :=
    List.Pairwise.nil
  exact ⟨hu, (publish_overwrite_unique "Alice" "A" "pub hi" 5 _ hu).2.2.2
    ⟨"hi", "Alice", "A", 5⟩ false rfl⟩

/-- Counterexample to C3 as stated: the sweep is NOT the first step of
`publish_task` — the empty-content check precedes it.  At time 1800 a
task created at time 0 is past TTL (the sweep alone would drop it), yet
an empty-content publish at time 1800 returns with that stale task still
in the store. -/
theorem sweep_not_first_counterexample :
    (publish_task "n" "u" "" 1800
        { tasks := [⟨"c", "n", "u", 0⟩], file := FileState.absent, saves := 0 }).1.tasks
      = [⟨"c", "n", "u", 0⟩]
  ∧ (1800 : Int) - (0 : Int) ≥ EXPIRATION_SECONDS
  ∧ (clean_expired 1800
        { tasks := [⟨"c", "n", "u", 0⟩], file := FileState.absent, saves := 0 }).tasks
      = [] := by
  refine ⟨rfl, by decide, by decide⟩

/-- C3 amended: every public operation reads or mutates the task store
only after the sweep, so any task a caller observes is within TTL; but in
`publish` and `search` argument parsing precedes the sweep, and a publish
rejected for empty content aborts before sweeping, leaving the store
exactly as it was. -/
theorem sweep_before_store_access (user_name user_id msg : String) (now : Int)
    (s : StoreState) :
    (∀ tk ∈ (list_tasks now s).2, now - tk.create_time < EXPIRATION_SECONDS)
  ∧ (∀ tk ∈ (search_task msg now s).2, now - tk.create_time < EXPIRATION_SECONDS)
  ∧ (∀ tk ∈ (delete_task user_id now s).1.tasks, now - tk.create_time < EXPIRATION_SECONDS)
  ∧ (parsePublishContent msg ≠ "" →
      ∀ tk ∈ (publish_task user_name user_id msg now s).1.tasks,
        now - tk.create_time < EXPIRATION_SECONDS)
  ∧ (parsePublishContent msg = "" →
      publish_task user_name user_id msg now s = (s, PublishResult.emptyContent)) := by
  have hmem : ∀ tk ∈ (clean_expired now s).tasks, now - tk.create_time < EXPIRATION_SECONDS :=
    fun tk htk => (mem_clean_expired.mp htk).2
  refine ⟨?_, ?_, ?_, ?_, fun hc => publish_of_empty hc⟩
  · intro tk htk
    simp only [list_tasks] at htk
    exact hmem tk htk
  · intro tk htk
    by_cases hk : parseSearchKeyword msg = ""
    · rw [search_of_empty_keyword hk] at htk
      simp only [list_tasks] at htk
      exact hmem tk htk
    · rw [search_of_keyword hk] at htk
      simp only [List.mem_filter] at htk
      exact hmem tk htk.1
  · intro tk htk
    cases hf : (clean_expired now s).tasks.find? (fun t => decide (t.publisher_id = user_id)) with
    | none =>
      rw [delete_of_none hf] at htk
      exact hmem tk htk
    | some target =>
      rw [delete_of_some hf] at htk
      exact hmem tk ((List.erase_sublist _ _).subset htk)
  · intro hc tk htk
    rw [publish_of_nonempty hc] at htk
    rcases List.mem_append.mp htk with h | h
    · exact hmem tk ((List.filter_sublist _).subset h)
    · simp only [List.mem_singleton] at h
      subst h
      simp only [expiration_eq]
      omega

/-- Witness for C3 amended: a fresh task is observed by `list_tasks`
within TTL. -/
theorem sweep_before_store_access_witness :
    (⟨"c", "n", "u", 0⟩ : Task)
        ∈ (list_tasks 10 { tasks := [⟨"c", "n", "u", 0⟩], file := FileState.absent, saves := 0 }).2
  ∧ (10 : Int) - (0 : Int) < EXPIRATION_SECONDS := by
  refine ⟨by decide, ?_⟩
  exact (sweep_before_store_access "n" "u" "" 10
    { tasks := [⟨"c", "n", "u", 0⟩], file := FileState.absent, saves := 0 }).1
    ⟨"c", "n", "u", 0⟩ (by decide)

/-- C6: if no post-sweep task belongs to the caller, delete reports
not-found and neither mutates nor persists (the result is exactly the
post-sweep state); if one does, delete returns a task of the caller's,
removes exactly it, and persists once. -/
theorem delete_not_found_or_removes (user_id : String) (now : Int) (s : StoreState) :
    ((∀ tk ∈ (clean_expired now s).tasks, tk.publisher_id ≠ user_id) →
        delete_task user_id now s = (clean_expired now s, none))
  ∧ ((∃ tk ∈ (clean_expired now s).tasks, tk.publisher_id = user_id) →
        ∃ tk, (delete_task user_id now s).2 = some tk
          ∧ tk ∈ (clean_expired now s).tasks
          ∧ tk.publisher_id = user_id
          ∧ (delete_task user_id now s).1.tasks = (clean_expired now s).tasks.erase tk
          ∧ (delete_task user_id now s).1.saves = (clean_expired now s).saves + 1) := by
  constructor
  · intro h
    have hf : (clean_expired now s).tasks.find?
        (fun t => decide (t.publisher_id = user_id)) = none := by
      rw [List.find?_eq_none]
      intro x hx
      simp [h x hx]
    exact delete_of_none hf
  · rintro ⟨tk0, htk0, hid0⟩
    cases hf : (clean_expired now s).tasks.find?
        (fun t => decide (t.publisher_id = user_id)) with
    | none =>
      exact absurd hid0 (by simpa using List.find?_eq_none.mp hf tk0 htk0)
    | some target =>
      have hp : target.publisher_id = user_id := by
        have := List.find?_some hf
        simpa using this
      have hm : target ∈ (clean_expired now s).tasks := List.mem_of_find?_eq_some hf
      refine ⟨target, ?_, hm, hp, ?_, ?_⟩
      · rw [delete_of_some hf]
      · rw [delete_of_some hf]
        rfl
      · rw [delete_of_some hf]
        rfl

/-- Witness for C6: deleting the sole task of its owner returns it,
erases it, and bumps the save counter. -/
theorem delete_not_found_or_removes_witness :
    (∃ tk ∈ (clean_expired 0 { tasks := [⟨"c", "n", "u", 0⟩], file := FileState.absent, saves := 0 }).tasks, tk.publisher_id = "u")
  ∧ ∃ tk, (delete_task "u" 0 { tasks := [⟨"c", "n", "u", 0⟩], file := FileState.absent, saves := 0 }).2 = some tk
      ∧ tk ∈ (clean_expired 0 { tasks := [⟨"c", "n", "u", 0⟩], file := FileState.absent, saves := 0 }).tasks
      ∧ tk.publisher_id = "u"
      ∧ (delete_task "u" 0 { tasks := [⟨"c", "n", "u", 0⟩], file := FileState.absent, saves := 0 }).1.tasks
        = (clean_expired 0 { tasks := [⟨"c", "n", "u", 0⟩], file := FileState.absent, saves := 0 }).tasks.erase tk
      ∧ (delete_task "u" 0 { tasks := [⟨"c", "n", "u", 0⟩], file := FileState.absent, saves := 0 }).1.saves
        = (clean_expired 0 { tasks := [⟨"c", "n", "u", 0⟩], file := FileState.absent, saves := 0 }).saves + 1 := by
  have hex : ∃ tk ∈ (clean_expired 0 { tasks := [⟨"c", "n", "u", 0⟩], file := FileState.absent, saves := 0 }).tasks, tk.publisher_id = "u" :=
    ⟨⟨"c", "n", "u", 0⟩, by decide, rfl⟩
  exact ⟨hex, (delete_not_found_or_removes "u" 0 _).2 hex⟩

/-- C10: when the trimmed message starts with none of the search aliases,
the keyword is empty and search lists all active tasks; publish, by
contrast, falls back to the whole trimmed message as its content. -/
theorem search_keyword_no_fallback (msg : String) (now : Int) (s : StoreState)
    (h : ∀ p ∈ searchAliases, strStartsWith (strTrim msg) p = false) :
    parseSearchKeyword msg = ""
  ∧ search_task msg now s = list_tasks now s
  ∧ ((∀ p ∈ publishAliases, strStartsWith (strTrim msg) p = false) →
      parsePublishContent msg = strTrim msg) := by
  have hf : searchAliases.find? (fun p => strStartsWith (strTrim msg) p) = none := by
    rw [List.find?_eq_none]
    intro p hp
    simp [h p hp]
  have hk : parseSearchKeyword msg = "" := by
    simp only [parseSearchKeyword, hf]
  refine ⟨hk, search_of_empty_keyword hk, fun h2 => ?_⟩
  have hf2 : publishAliases.find? (fun p => strStartsWith (strTrim msg) p) = none := by
    rw [List.find?_eq_none]
    intro p hp
    simp [h2 p hp]
  simp only [parsePublishContent, hf2]

/-- Witness for C10: "hi there" matches no alias; its search keyword is
empty, searching lists, while publish would take the whole message. -/
theorem search_keyword_no_fallback_witness :
    (∀ p ∈ searchAliases, strStartsWith (strTrim "hi there") p = false)
  ∧ parseSearchKeyword "hi there" = ""
  ∧ search_task "hi there" 3 { tasks := [], file := FileState.absent, saves := 0 }
      = list_tasks 3 { tasks := [], file := FileState.absent, saves := 0 }
  ∧ parsePublishContent "hi there" = strTrim "hi there" := by
  have h1 : ∀ p ∈ searchAliases, strStartsWith (strTrim "hi there") p = false := by decide
  have h := search_keyword_no_fallback "hi there" 3
    { tasks := [], file := FileState.absent, saves := 0 } h1
  exact ⟨h1, h.1, h.2.1, h.2.2 (by decide)⟩

end QuickTask
